import Mathlib

/-!
Verification of the Aurora Beauty recommendation engine
(`src/recommendations/recommendation_engine.py`) against its natural-language
specification.

The engine is shallowly embedded: pandas/numpy values become lists and exact
rationals (`ℚ`); Python float literals such as `0.1`, `0.6`, `0.4` are modelled
as the exact rationals `1/10`, `6/10`, `4/10`; Python exceptions become an
explicit `Except` layer.  Python object attributes that may be *unassigned*
(reading them raises `AttributeError`) are modelled by the three-state type
`Attr`, distinguishing "never assigned", "assigned None" and "assigned a
value" — this distinction is load-bearing because `__init__` assigns
`product_similarity_matrix = None` but never assigns `product_similarity_df`,
which the query path reads.
-/

namespace Aurora

/-- One transaction line item, as consumed from the ledger.  Only the fields
read by the embedded operations are carried (`category`, `price` and the
timestamp are never read by the recommendation paths). -/
structure Transaction where
  transaction_id : String
  customer_id : String
  product_id : String
  quantity : Nat
deriving DecidableEq

/-- A Python attribute slot: never assigned (reading raises `AttributeError`),
assigned `None`, or assigned a value. -/
inductive Attr (α : Type) where
  | unset : Attr α
  | setNone : Attr α
  | setVal : α → Attr α

/-- The similarity DataFrame built by `build_item_similarity_matrix`
(lines 125-151): a square table indexed both ways by the product ids
(`pivot_table` columns), with `score r c` the entry at row `r`, column `c`.
The cosine values themselves are abstracted as arbitrary rationals; no settled
claim depends on how they are computed, only on lookup/sort/filter. -/
structure SimDF where
  products : List String
  score : String → String → ℚ

/-- One association rule row of the DataFrame built by
`perform_market_basket_analysis` (lines 191-225). -/
structure Rule where
  antecedent : String
  consequent : String
  support : ℚ
  confidence : ℚ
  lift : ℚ
deriving DecidableEq

/-- The modelled Python exception (only `AttributeError` can occur on the
embedded paths), carrying the message used in `str(e)`. -/
inductive PyError where
  | attributeError : String → PyError
deriving DecidableEq

/-- Message of the `AttributeError` raised when `product_similarity_df` is read
before any assignment (quotes of the real CPython message are elided). -/
def attrMsg : String :=
  "AuroraRecommendationEngine object has no attribute product_similarity_df"

def pyMsg : PyError → String
  | .attributeError m => m

/-- Mutable engine state: the cache attributes of `AuroraRecommendationEngine`.
`customer_profiles` is never read by any embedded operation and is omitted. -/
structure EngineState where
  product_similarity_matrix : Attr Unit
  product_similarity_df : Attr SimDF
  association_rules : Option (List Rule)

/-- State right after `__init__` (lines 39-52): `product_similarity_matrix` and
`association_rules` are assigned `None`, while `product_similarity_df` is never
assigned at all. -/
def initialEngine : EngineState :=
  { product_similarity_matrix := Attr.setNone
    product_similarity_df := Attr.unset
    association_rules := none }

/-- `self.min_support = 0.01` (line 45). -/
def min_support : ℚ := 1/100

/-- `self.min_confidence = 0.1` (line 46). -/
def min_confidence : ℚ := 1/10

/-- `self.top_n_recommendations = 5` (line 47); assigned once, never
reassigned anywhere in the repository. -/
def top_n_recommendations : Nat := 5

/-- Stable insertion into a list sorted descending by score: the inserted
element goes before the first element whose score is not larger. -/
def insertScoreDesc (x : String × ℚ) : List (String × ℚ) → List (String × ℚ)
  | [] => [x]
  | y :: ys => if y.2 ≤ x.2 then x :: y :: ys else y :: insertScoreDesc x ys

/-- Stable sort, descending by score.  Models both `Series.sort_values
(ascending=False)` (line 162) and Python `sorted(..., key=score,
reverse=True)` (lines 251, 301); Python `sorted` is stable, and the order of
equal-score entries under pandas' default quicksort is not specified — no
settled claim depends on the tie order. -/
def sortScoreDesc (l : List (String × ℚ)) : List (String × ℚ) :=
  l.foldr insertScoreDesc []

/-- `get_similar_products` (lines 153-167).  The source calls it with the
default `n_recommendations=5` from the `item_based` branch and with `10` from
the `hybrid` branch.  Reading `self.product_similarity_df` on a fresh engine
raises `AttributeError` because `__init__` only assigns
`product_similarity_matrix`. -/
def getSimilarProducts (st : EngineState) (product_id : String)
    (n_recommendations : Nat) : Except PyError (List (String × ℚ)) :=
  match st.product_similarity_df with
  | .unset => .error (.attributeError attrMsg)
  | .setNone => .ok []
  | .setVal df =>
      if product_id ∈ df.products then
        .ok ((((sortScoreDesc
                 (df.products.map (fun p => (p, df.score p product_id)))).filter
                (fun pr => decide (pr.1 ≠ product_id))).take n_recommendations))
      else .ok []

/-- First-occurrence deduplication, as `pandas.Series.unique` (line 182). -/
def pdUnique : List String → List String
  | [] => []
  | a :: rest => a :: pdUnique (rest.filter (fun x => decide (x ≠ a)))
  termination_by l => l.length
  decreasing_by
    simp only [List.length_cons]
    exact Nat.lt_succ_of_le (List.length_filter_le _ _)

/-- Distinct transaction ids, in first-occurrence order (the `groupby` keys of
line 178; `groupby` sorts keys, but no settled claim depends on basket
enumeration order). -/
def basketIds (txs : List Transaction) : List String :=
  pdUnique (txs.map (·.transaction_id))

/-- The product list of one basket (`groupby('transaction_id')['product_id']
.apply(list)`, line 178). -/
def basketOf (txs : List Transaction) (tid : String) : List String :=
  (txs.filter (fun t => decide (t.transaction_id = tid))).map (·.product_id)

/-- All baskets (line 178-179). -/
def baskets (txs : List Transaction) : List (List String) :=
  (basketIds txs).map (basketOf txs)

/-- `sum(1 for basket in baskets if p in basket)` (lines 187, 203, 204). -/
def countContaining (bks : List (List String)) (p : String) : Nat :=
  (bks.filter (fun bk => decide (p ∈ bk))).length

/-- `sum(1 for basket in baskets if a in basket and b in basket)` (line 198). -/
def coOccurrence (bks : List (List String)) (a b : String) : Nat :=
  (bks.filter (fun bk => decide (a ∈ bk ∧ b ∈ bk))).length

/-- Support of a single item (line 187). -/
def item_support (txs : List Transaction) (p : String) : ℚ :=
  (countContaining (baskets txs) p : ℚ) / ((baskets txs).length : ℚ)

/-- `all_products` (line 182), in first-occurrence order. -/
def all_products (txs : List Transaction) : List String :=
  pdUnique (txs.map (·.product_id))

/-- Keys of the `item_support` dict (lines 183-193): products whose support
meets `min_support`. -/
def frequent_items (txs : List Transaction) : List String :=
  (all_products txs).filter (fun p => decide (min_support ≤ item_support txs p))

/-- The ordered pairs enumerated by the nested loops
`for i, item_a in enumerate(frequent_items): for item_b in
frequent_items[i+1:]` (lines 195-196). -/
def pairsAfter : List String → List (String × String)
  | [] => []
  | a :: rest => rest.map (fun b => (a, b)) ++ pairsAfter rest

/-- Rules produced for one unordered frequent pair (lines 197-223):
skipped when the co-occurrence count is zero, otherwise each direction is
emitted iff its confidence meets `min_confidence`. -/
def rulesForPair (bks : List (List String)) (supp : String → ℚ) (a b : String) :
    List Rule :=
  let co := coOccurrence bks a b
  if 0 < co then
    let support_ab : ℚ := (co : ℚ) / (bks.length : ℚ)
    let conf_a_b : ℚ := (co : ℚ) / (countContaining bks a : ℚ)
    let conf_b_a : ℚ := (co : ℚ) / (countContaining bks b : ℚ)
    (if min_confidence ≤ conf_a_b then
       [{ antecedent := a, consequent := b, support := support_ab,
          confidence := conf_a_b, lift := conf_a_b / supp b }]
     else []) ++
    (if min_confidence ≤ conf_b_a then
       [{ antecedent := b, consequent := a, support := support_ab,
          confidence := conf_b_a, lift := conf_b_a / supp a }]
     else [])
  else []

/-- `perform_market_basket_analysis` (lines 173-227): the association-rule
rows, in emission order. -/
def perform_market_basket_analysis (txs : List Transaction) : List Rule :=
  (pairsAfter (frequent_items txs)).flatMap
    (fun pr => rulesForPair (baskets txs) (item_support txs) pr.1 pr.2)

/-- Insert-or-combine on an insertion-ordered association list, the model of a
Python dict update `d[k] = f (d.get-or-existing) v`: the first entry with key
`k` is combined in place, otherwise `(k, v)` is appended. -/
def upsert (f : ℚ → ℚ → ℚ) : List (String × ℚ) → String → ℚ → List (String × ℚ)
  | [], k, v => [(k, v)]
  | (k0, v0) :: rest, k, v =>
      if k0 = k then (k0, f v0 v) :: rest else (k0, v0) :: upsert f rest k v

/-- Lookup with default 0, the model of `d.get(k, 0)` on the dict model. -/
def lookupD (d : List (String × ℚ)) (k : String) : ℚ :=
  ((d.find? (fun pr => decide (pr.1 = k))).map Prod.snd).getD 0

/-- One rule application inside `get_basket_recommendations` (lines 240-248):
skip consequents already in the basket, otherwise keep the maximum of
`confidence * lift` per consequent. -/
def basketStep (current_basket : List String) (d : List (String × ℚ))
    (r : Rule) : List (String × ℚ) :=
  if r.consequent ∈ current_basket then d
  else upsert (fun v0 v => max v0 v) d r.consequent (r.confidence * r.lift)

/-- The `recommendations` dict of `get_basket_recommendations`
(lines 234-248): for each basket item in order, apply every rule whose
antecedent equals that item. -/
def basketDict (rules : List Rule) (current_basket : List String) :
    List (String × ℚ) :=
  current_basket.foldl
    (fun d item =>
      (rules.filter (fun r => decide (r.antecedent = item))).foldl
        (basketStep current_basket) d) []

/-- `get_basket_recommendations` (lines 229-252). -/
def get_basket_recommendations (st : EngineState)
    (current_basket : List String) : List (String × ℚ) :=
  match st.association_rules with
  | none => []
  | some rules =>
      if rules.isEmpty then []
      else (sortScoreDesc (basketDict rules current_basket)).take
             top_n_recommendations

/-- Python truthiness of an optional string argument (`None` and `""` are
falsy). -/
def truthyStr : Option String → Bool
  | none => false
  | some s => !s.isEmpty

/-- Python truthiness of an optional list argument (`None` and `[]` are
falsy). -/
def truthyList : Option (List String) → Bool
  | none => false
  | some l => !l.isEmpty

/-- `customer_id or "unknown"` (line 314). -/
def customerOr : Option String → String
  | none => "unknown"
  | some s => if s.isEmpty then "unknown" else s

/-- One recommended product entry of `recommended_products`. -/
structure RecItem where
  product_id : String
  score : ℚ
  reason : String
deriving DecidableEq

/-- The `RecommendationResult` dataclass (lines 21-28). -/
structure RecommendationResult where
  customer_id : String
  recommended_products : List RecItem
  recommendation_type : String
  confidence_score : ℚ
  explanation : String
deriving DecidableEq

/-- `np.mean([r['score'] for r in recs]) if recs else 0.0`
(lines 277, 284, 305). -/
def meanScore (recs : List RecItem) : ℚ :=
  if recs.isEmpty then 0 else (recs.map (·.score)).sum / (recs.length : ℚ)

/-- Dict accumulation `all_recs[pid] = all_recs.get(pid, 0) + score * w`
over a scored list (lines 292-293 with `w = 0.6`, lines 297-298 with
`w = 0.4`). -/
def accumWeighted (d : List (String × ℚ)) (recs : List (String × ℚ)) (w : ℚ) :
    List (String × ℚ) :=
  recs.foldl (fun d pr => upsert (fun v0 v => v0 + v) d pr.1 (pr.2 * w)) d

/-- The item-based contribution of the hybrid branch (lines 290-293):
`if product_id and self.product_similarity_df is not None` — note the
short-circuit: the attribute is only read (and can only raise) when
`product_id` is truthy. -/
def hybridItemPart (st : EngineState) (product_id : Option String) :
    Except PyError (List (String × ℚ)) :=
  if truthyStr product_id then
    match st.product_similarity_df with
    | .unset => .error (.attributeError attrMsg)
    | .setNone => .ok []
    | .setVal _ =>
        match getSimilarProducts st (product_id.getD "") 10 with
        | .error e => .error e
        | .ok item_recs => .ok (accumWeighted [] item_recs (6/10))
  else .ok []

/-- The full `all_recs` dict of the hybrid branch (lines 288-298). -/
def hybridAllRecs (st : EngineState) (product_id : Option String)
    (current_basket : Option (List String)) :
    Except PyError (List (String × ℚ)) :=
  match hybridItemPart st product_id with
  | .error e => .error e
  | .ok all1 =>
      if truthyList current_basket ∧ (st.association_rules).isSome then
        .ok (accumWeighted all1
              (get_basket_recommendations st (current_basket.getD [])) (4/10))
      else .ok all1

/-- The body of the `try:` block of `get_recommendations` (lines 271-305):
the branch taken, the formatted recommendation list and the explanation
string.  The `item_based` branch calls `get_similar_products` with its
default `n_recommendations = 5`. -/
def innerBranches (st : EngineState) (product_id : Option String)
    (current_basket : Option (List String)) (recommendation_type : String) :
    Except PyError (List RecItem × String) :=
  if recommendation_type = "item_based" ∧ truthyStr product_id then
    match getSimilarProducts st (product_id.getD "") 5 with
    | .error e => .error e
    | .ok similar_products =>
        .ok (similar_products.map
              (fun pr => ⟨pr.1, pr.2, "Similar customers also bought"⟩),
             "Products similar to " ++ product_id.getD "" ++
               " based on customer purchase patterns")
  else if recommendation_type = "market_basket" ∧ truthyList current_basket then
    .ok ((get_basket_recommendations st (current_basket.getD [])).map
          (fun pr => ⟨pr.1, pr.2, "Frequently bought together"⟩),
         "Products frequently bought with items in your basket")
  else if recommendation_type = "hybrid" then
    match hybridAllRecs st product_id current_basket with
    | .error e => .error e
    | .ok all_recs =>
        .ok (((sortScoreDesc all_recs).take top_n_recommendations).map
              (fun pr => ⟨pr.1, pr.2, "Hybrid recommendation"⟩),
             "Recommendations using multiple algorithms")
  else .ok ([], "")

/-- `get_recommendations` (lines 258-319).  The `except Exception` handler
(lines 307-311) converts any raised exception into an empty result whose
explanation is `"Error: " + str(e)`; the function itself never raises. -/
def getRecommendations (st : EngineState) (customer_id : Option String)
    (product_id : Option String) (current_basket : Option (List String))
    (recommendation_type : String) : RecommendationResult :=
  match innerBranches st product_id current_basket recommendation_type with
  | .ok (recs, expl) =>
      { customer_id := customerOr customer_id
        recommended_products := recs
        recommendation_type := recommendation_type
        confidence_score := meanScore recs
        explanation := expl }
  | .error e =>
      { customer_id := customerOr customer_id
        recommended_products := []
        recommendation_type := recommendation_type
        confidence_score := 0
        explanation := "Error: " ++ pyMsg e }

/-- The similarity-source score of the hybrid formula, written from the spec
sentence: p's item-similarity score, taken as 0 if `product_id` was not given
or p is not among the top-10 item-based results. -/
def specItemScore (st : EngineState) (product_id : Option String)
    (p : String) : ℚ :=
  match product_id with
  | none => 0
  | some s =>
      if s.isEmpty then 0
      else
        match getSimilarProducts st s 10 with
        | .error _ => 0
        | .ok l => lookupD l p

/-- The basket-source score of the hybrid formula, written from the spec
sentence: p's basket-recommendation score, taken as 0 if `basket` was not
given or p is not among the basket recommendations. -/
def specBasketScore (st : EngineState) (current_basket : Option (List String))
    (p : String) : ℚ :=
  match current_basket with
  | none => 0
  | some b =>
      if b.isEmpty then 0 else lookupD (get_basket_recommendations st b) p

/-- Candidate p is present in the item-based source of a hybrid query. -/
def inItemSource (st : EngineState) (product_id : Option String)
    (p : String) : Prop :=
  truthyStr product_id = true ∧
    ∃ l, getSimilarProducts st (product_id.getD "") 10 = .ok l ∧
      p ∈ l.map Prod.fst

/-- Candidate p is present in the basket source of a hybrid query. -/
def inBasketSource (st : EngineState) (current_basket : Option (List String))
    (p : String) : Prop :=
  truthyList current_basket = true ∧
    p ∈ (get_basket_recommendations st (current_basket.getD [])).map Prod.fst

/-- The similarity DataFrame index produced by `pivot_table` has pairwise
distinct column labels; states whose similarity index repeats a product id are
not reachable by any build. -/
def simNodup (st : EngineState) : Prop :=
  match st.product_similarity_df with
  | .setVal df => df.products.Nodup
  | _ => True

/-- A built engine used to instantiate theorems with hypotheses: a 3-product
similarity table and one association rule. -/
def demoDF : SimDF := ⟨["A", "B", "C"], fun i j => if i = j then 1 else 1/2⟩

def demoRules : List Rule := [⟨"B", "C", 1/2, 1/2, 2⟩]

def demoState : EngineState := ⟨Attr.setNone, Attr.setVal demoDF, some demoRules⟩

/-- The basket scenario of the specification: baskets {A,B}, {A,B}, {A}. -/
def demoTxs : List Transaction :=
  [⟨"T1", "C1", "A", 1⟩, ⟨"T1", "C1", "B", 1⟩, ⟨"T2", "C2", "A", 1⟩,
   ⟨"T2", "C2", "B", 1⟩, ⟨"T3", "C3", "A", 1⟩]

/-! ### Sorting lemmas -/

theorem insertScoreDesc_perm (x : String × ℚ) (l : List (String × ℚ)) :
    List.Perm (insertScoreDesc x l) (x :: l) := by
  induction l with
  | nil => exact List.Perm.refl _
  | cons y ys ih =>
      unfold insertScoreDesc
      by_cases h : y.2 ≤ x.2
      · rw [if_pos h]
      · rw [if_neg h]
        exact (ih.cons y).trans (List.Perm.swap x y ys)

theorem sortScoreDesc_perm (l : List (String × ℚ)) :
    List.Perm (sortScoreDesc l) l := by
  induction l with
  | nil => exact List.Perm.refl _
  | cons x xs ih =>
      exact (insertScoreDesc_perm x (sortScoreDesc xs)).trans (ih.cons x)

theorem mem_sortScoreDesc {pr : String × ℚ} {l : List (String × ℚ)} :
    pr ∈ sortScoreDesc l ↔ pr ∈ l :=
  (sortScoreDesc_perm l).mem_iff

theorem sortScoreDesc_keys_nodup {l : List (String × ℚ)}
    (h : (l.map Prod.fst).Nodup) : ((sortScoreDesc l).map Prod.fst).Nodup :=
  ((sortScoreDesc_perm l).map Prod.fst).nodup_iff.mpr h

/-! ### Arithmetic shape of the confidence score -/

theorem meanScore_eq (recs : List RecItem) :
    meanScore recs = if recs = [] then 0
      else (recs.map (fun r => r.score)).sum / (recs.length : ℚ) := by
  unfold meanScore
  cases recs <;> simp

/-! ### Claim C4: querying a never-built similarity model.
The guard on line 155 checks `self.product_similarity_df is None`, but
`__init__` (line 50) assigns `None` to `product_similarity_matrix`, never to
`product_similarity_df`; reading the latter on a fresh engine therefore
raises `AttributeError` instead of returning `[]`. -/

/-- C4 (code_bug evidence): calling `get_similar_products` on a fresh engine
raises `AttributeError` rather than returning the empty list the claim (and
the guard on line 155) intends. -/
theorem get_similar_untrained_attribute_error :
    getSimilarProducts initialEngine "PROD001" 5 =
      Except.error (PyError.attributeError attrMsg) := rfl

/-! ### Claim C10: unmatched recommendation_type -/

/-- C10: for any `recommendation_type` outside the three recognized modes,
`get_recommendations` returns (does not raise) a result with an empty product
list, confidence 0.0, empty explanation, and the requested type echoed. -/
theorem unknown_mode_empty_result (st : EngineState) (c pid : Option String)
    (bask : Option (List String)) (rtype : String)
    (h1 : rtype ≠ "item_based") (h2 : rtype ≠ "market_basket")
    (h3 : rtype ≠ "hybrid") :
    getRecommendations st c pid bask rtype =
      { customer_id := customerOr c, recommended_products := [],
        recommendation_type := rtype, confidence_score := 0,
        explanation := "" } := by
  have hA : ¬(rtype = "item_based" ∧ truthyStr pid = true) := fun hc => h1 hc.1
  have hB : ¬(rtype = "market_basket" ∧ truthyList bask = true) :=
    fun hc => h2 hc.1
  simp only [getRecommendations, innerBranches, if_neg hA, if_neg hB,
    if_neg h3, meanScore, List.isEmpty_nil, if_pos]

/-- Witness for C10 at a concrete unknown mode. -/
theorem unknown_mode_empty_result_witness :
    getRecommendations initialEngine (some "CUST001") none none "popular" =
      { customer_id := "CUST001", recommended_products := [],
        recommendation_type := "popular", confidence_score := 0,
        explanation := "" } := by
  have h := unknown_mode_empty_result initialEngine (some "CUST001") none none
    "popular" (by decide) (by decide) (by decide)
  simpa [customerOr] using h

/-! ### Claim C2: the error taxonomy.
The source defines no `ModelNotTrainedError` or `DataValidationError`
anywhere; a `market_basket` query with no basket silently falls through every
branch and returns an empty result, and the blanket `except Exception`
handler (lines 307-311) converts every internal exception into an empty
result instead of propagating it. -/

/-- Counterexample to C2: the exact scenario the claim names — mode
`market_basket` with no `basket` — returns a normal empty
`RecommendationResult`; nothing is raised. -/
theorem market_basket_missing_basket_returns :
    getRecommendations initialEngine none none none "market_basket" =
      { customer_id := "unknown", recommended_products := [],
        recommendation_type := "market_basket", confidence_score := 0,
        explanation := "" } := rfl

/-- C2 amended: `get_recommendations` never raises.  A `market_basket` query
whose basket argument is falsy returns an empty result with confidence 0 and
empty explanation, and an internal exception (here the `AttributeError` from a
never-built similarity model) is caught and converted into an empty result
whose explanation is `"Error: "` followed by the message. -/
theorem get_recommendations_never_raises :
    (∀ (st : EngineState) (c pid : Option String) (bask : Option (List String)),
        truthyList bask = false →
        getRecommendations st c pid bask "market_basket" =
          { customer_id := customerOr c, recommended_products := [],
            recommendation_type := "market_basket", confidence_score := 0,
            explanation := "" }) ∧
    (∀ (c : Option String) (bask : Option (List String)),
        getRecommendations initialEngine c (some "PROD001") bask "item_based" =
          { customer_id := customerOr c, recommended_products := [],
            recommendation_type := "item_based", confidence_score := 0,
            explanation := "Error: " ++ attrMsg }) := by
  constructor
  · intro st c pid bask hb
    simp [getRecommendations, innerBranches, hb, meanScore]
  · intro c bask
    rfl

/-- Witness for C2's amended theorem at a concrete query. -/
theorem get_recommendations_never_raises_witness :
    getRecommendations demoState (some "CUST007") none (some []) "market_basket" =
      { customer_id := "CUST007", recommended_products := [],
        recommendation_type := "market_basket", confidence_score := 0,
        explanation := "" } := by
  have h := get_recommendations_never_raises.1 demoState (some "CUST007") none
    (some []) (by decide)
  simpa [customerOr] using h

/-! ### Claim C9: confidence_score is the mean of the returned scores -/

/-- C9: on every query path (all three modes, the fall-through path and the
exception path), the returned `confidence_score` equals the arithmetic mean of
the returned items' scores, and 0 when the list is empty. -/
theorem confidence_score_is_mean (st : EngineState) (c pid : Option String)
    (bask : Option (List String)) (rtype : String) :
    (getRecommendations st c pid bask rtype).confidence_score =
      if (getRecommendations st c pid bask rtype).recommended_products = [] then 0
      else ((getRecommendations st c pid bask rtype).recommended_products.map
              (fun r => r.score)).sum /
           (((getRecommendations st c pid bask rtype).recommended_products.length : ℚ)) := by
  unfold getRecommendations
  cases h : innerBranches st pid bask rtype with
  | ok pr => simpa using meanScore_eq pr.1
  | error e => simp

/-! ### Claim C3: result length never exceeds top_n_recommendations -/

theorem getSimilar_length_le (st : EngineState) (pid : String) (n : Nat)
    (l : List (String × ℚ)) (h : getSimilarProducts st pid n = .ok l) :
    l.length ≤ n := by
  unfold getSimilarProducts at h
  split at h
  · exact absurd h (by simp)
  · cases h; simp
  · split at h
    · cases h
      exact List.length_take_le _ _
    · cases h; simp

theorem basketRecs_length_le (st : EngineState) (bask : List String) :
    (get_basket_recommendations st bask).length ≤ top_n_recommendations := by
  unfold get_basket_recommendations
  cases st.association_rules with
  | none => simp
  | some rules =>
      by_cases he : rules.isEmpty
      · simp [he]
      · simp only [he, Bool.false_eq_true, if_neg, reduceIte]
        exact List.length_take_le _ _

theorem innerBranches_length_le (st : EngineState) (pid : Option String)
    (bask : Option (List String)) (rtype : String)
    (recs : List RecItem) (expl : String)
    (h : innerBranches st pid bask rtype = .ok (recs, expl)) :
    recs.length ≤ top_n_recommendations := by
  unfold innerBranches at h
  split at h
  · cases hs : getSimilarProducts st (pid.getD "") 5 with
    | error e => rw [hs] at h; exact absurd h (by simp)
    | ok sp =>
        rw [hs] at h
        cases h
        simpa using getSimilar_length_le st (pid.getD "") 5 sp hs
  · split at h
    · cases h
      simpa using basketRecs_length_le st (bask.getD [])
    · split at h
      · cases hh : hybridAllRecs st pid bask with
        | error e => rw [hh] at h; exact absurd h (by simp)
        | ok all =>
            rw [hh] at h
            cases h
            simp
      · cases h
        simp

/-- C3: for every mode string and every input, the returned
`recommended_products` list has length at most `top_n_recommendations`. -/
theorem recommendations_length_le_top_n (st : EngineState)
    (c pid : Option String) (bask : Option (List String)) (rtype : String) :
    (getRecommendations st c pid bask rtype).recommended_products.length ≤
      top_n_recommendations := by
  unfold getRecommendations
  cases h : innerBranches st pid bask rtype with
  | ok pr => simpa using innerBranches_length_le st pid bask rtype pr.1 pr.2 h
  | error e => simp

/-! ### Claim C6: GetSimilar never returns the queried product -/

/-- C6: whenever `get_similar_products` returns a list, the queried product id
is not among the returned product ids. -/
theorem get_similar_excludes_query (st : EngineState) (pid : String) (n : Nat)
    (l : List (String × ℚ)) (h : getSimilarProducts st pid n = .ok l) :
    pid ∉ l.map Prod.fst := by
  intro hmem
  obtain ⟨pr, hpr, hfst⟩ := List.mem_map.mp hmem
  unfold getSimilarProducts at h
  split at h
  · exact absurd h (by simp)
  · cases h; simp at hpr
  · split at h
    · cases h
      have hfil := List.take_subset _ _ hpr
      have hne := (List.mem_filter.mp hfil).2
      simp only [decide_eq_true_eq] at hne
      exact hne hfst
    · cases h; simp at hpr

/-! ### Association-list (Python dict) lemmas -/

theorem mem_upsert (f : ℚ → ℚ → ℚ) (d : List (String × ℚ)) (k : String)
    (v : ℚ) (q : String × ℚ) (h : q ∈ upsert f d k v) : q.1 = k ∨ q ∈ d := by
  induction d with
  | nil =>
      simp only [upsert, List.mem_singleton] at h
      subst h
      exact Or.inl rfl
  | cons hd tl ih =>
      obtain ⟨k0, v0⟩ := hd
      by_cases hk : k0 = k
      · simp only [upsert, if_pos hk, List.mem_cons] at h
        rcases h with he | ht
        · subst he; exact Or.inl hk
        · exact Or.inr (List.mem_cons_of_mem _ ht)
      · simp only [upsert, if_neg hk, List.mem_cons] at h
        rcases h with he | ht
        · subst he; exact Or.inr (List.mem_cons_self _ _)
        · rcases ih ht with h1 | h2
          · exact Or.inl h1
          · exact Or.inr (List.mem_cons_of_mem _ h2)

theorem mem_keys_upsert (f : ℚ → ℚ → ℚ) (d : List (String × ℚ)) (k : String)
    (v : ℚ) (p : String) :
    p ∈ (upsert f d k v).map Prod.fst ↔ p = k ∨ p ∈ d.map Prod.fst := by
  induction d with
  | nil => simp [upsert]
  | cons hd tl ih =>
      obtain ⟨k0, v0⟩ := hd
      by_cases hk : k0 = k
      · simp only [upsert, if_pos hk, List.map_cons, List.mem_cons]
        subst hk
        tauto
      · simp only [upsert, if_neg hk, List.map_cons, List.mem_cons, ih]
        tauto

theorem keys_nodup_upsert (f : ℚ → ℚ → ℚ) (d : List (String × ℚ)) (k : String)
    (v : ℚ) (h : (d.map Prod.fst).Nodup) :
    ((upsert f d k v).map Prod.fst).Nodup := by
  induction d with
  | nil => simp [upsert]
  | cons hd tl ih =>
      obtain ⟨k0, v0⟩ := hd
      simp only [List.map_cons, List.nodup_cons] at h
      by_cases hk : k0 = k
      · simp only [upsert, if_pos hk, List.map_cons, List.nodup_cons]
        exact h
      · simp only [upsert, if_neg hk, List.map_cons, List.nodup_cons]
        refine ⟨fun hm => ?_, ih h.2⟩
        rcases (mem_keys_upsert f tl k v k0).mp hm with he | ht
        · exact hk he
        · exact h.1 ht

theorem lookupD_nil (k : String) : lookupD [] k = 0 := rfl

theorem lookupD_cons_self (k : String) (v : ℚ) (t : List (String × ℚ)) :
    lookupD ((k, v) :: t) k = v := by
  simp [lookupD]

theorem lookupD_cons_ne (k0 : String) (v0 : ℚ) (t : List (String × ℚ))
    (k : String) (h : k0 ≠ k) : lookupD ((k0, v0) :: t) k = lookupD t k := by
  simp [lookupD, List.find?_cons_of_neg, h]

theorem lookupD_eq_zero_of_not_mem (d : List (String × ℚ)) (k : String)
    (h : k ∉ d.map Prod.fst) : lookupD d k = 0 := by
  induction d with
  | nil => rfl
  | cons hd tl ih =>
      obtain ⟨k0, v0⟩ := hd
      simp only [List.map_cons, List.mem_cons] at h
      push_neg at h
      rw [lookupD_cons_ne k0 v0 tl k (fun he => h.1 he.symm)]
      exact ih h.2

theorem lookupD_of_mem (d : List (String × ℚ))
    (h : (d.map Prod.fst).Nodup) (p : String) (v : ℚ) (hm : (p, v) ∈ d) :
    lookupD d p = v := by
  induction d with
  | nil => simp at hm
  | cons hd tl ih =>
      obtain ⟨k0, v0⟩ := hd
      simp only [List.map_cons, List.nodup_cons] at h
      rcases List.mem_cons.mp hm with he | ht
      · cases he
        exact lookupD_cons_self p v tl
      · have hne : k0 ≠ p :=
          fun he => h.1 (he ▸ List.mem_map.mpr ⟨(p, v), ht, rfl⟩)
        rw [lookupD_cons_ne k0 v0 tl p hne]
        exact ih h.2 ht

theorem lookupD_upsert_add (d : List (String × ℚ)) (k : String) (v : ℚ)
    (p : String) :
    lookupD (upsert (fun v0 v1 => v0 + v1) d k v) p =
      if p = k then lookupD d p + v else lookupD d p := by
  induction d with
  | nil =>
      by_cases hp : p = k
      · subst hp
        simp [upsert, lookupD_cons_self, lookupD_nil]
      · simp [upsert, lookupD_cons_ne k v [] p (fun he => hp he.symm),
          lookupD_nil, hp]
  | cons hd tl ih =>
      obtain ⟨k0, v0⟩ := hd
      by_cases hk : k0 = k
      · subst hk
        by_cases hp : p = k0
        · subst hp
          simp [upsert, lookupD_cons_self]
        · simp [upsert, lookupD_cons_ne k0 _ tl p (fun he => hp he.symm), hp]
      · by_cases hp : p = k0
        · subst hp
          have hpk : p ≠ k := fun he => hk (he ▸ rfl)
          simp [upsert, if_neg hk, lookupD_cons_self, hpk]
        · simp only [upsert, if_neg hk,
            lookupD_cons_ne k0 v0 _ p (fun he => hp he.symm),
            lookupD_cons_ne k0 v0 tl p (fun he => hp he.symm)]
          exact ih

theorem lookupD_accumWeighted (d recs : List (String × ℚ)) (w : ℚ) (p : String)
    (hnd : (recs.map Prod.fst).Nodup) :
    lookupD (accumWeighted d recs w) p = lookupD d p + lookupD recs p * w := by
  induction recs generalizing d with
  | nil => simp [accumWeighted, lookupD_nil]
  | cons q t ih =>
      obtain ⟨qk, qv⟩ := q
      simp only [List.map_cons, List.nodup_cons] at hnd
      show lookupD (accumWeighted (upsert _ d qk (qv * w)) t w) p = _
      rw [ih _ hnd.2, lookupD_upsert_add]
      by_cases hp : p = qk
      · subst hp
        rw [if_pos rfl, lookupD_cons_self,
          lookupD_eq_zero_of_not_mem t p hnd.1]
        ring
      · rw [if_neg hp, lookupD_cons_ne qk qv t p (fun he => hp he.symm)]

theorem mem_keys_accumWeighted (d recs : List (String × ℚ)) (w : ℚ)
    (p : String) :
    p ∈ (accumWeighted d recs w).map Prod.fst ↔
      p ∈ d.map Prod.fst ∨ p ∈ recs.map Prod.fst := by
  induction recs generalizing d with
  | nil => simp [accumWeighted]
  | cons q t ih =>
      show p ∈ (accumWeighted (upsert _ d q.1 (q.2 * w)) t w).map Prod.fst ↔ _
      rw [ih, mem_keys_upsert]
      simp only [List.map_cons, List.mem_cons]
      tauto

theorem keys_nodup_accumWeighted (d recs : List (String × ℚ)) (w : ℚ)
    (h : (d.map Prod.fst).Nodup) :
    ((accumWeighted d recs w).map Prod.fst).Nodup := by
  induction recs generalizing d with
  | nil => exact h
  | cons q t ih => exact ih _ (keys_nodup_upsert _ _ _ _ h)

/-! ### Basket-recommendation dict lemmas -/

theorem basketStep_fold_not_mem (bask : List String) (rl : List Rule)
    (d : List (String × ℚ)) (hd : ∀ q ∈ d, q.1 ∉ bask) :
    ∀ q ∈ rl.foldl (basketStep bask) d, q.1 ∉ bask := by
  induction rl generalizing d with
  | nil => exact hd
  | cons r t ih =>
      intro q hq
      refine ih _ ?_ q hq
      intro q' hq'
      unfold basketStep at hq'
      split at hq'
      · exact hd q' hq'
      · rcases mem_upsert _ _ _ _ q' hq' with h1 | h2
        · rw [h1]; assumption
        · exact hd q' h2

theorem basketStep_fold_keys_nodup (bask : List String) (rl : List Rule)
    (d : List (String × ℚ)) (h : (d.map Prod.fst).Nodup) :
    ((rl.foldl (basketStep bask) d).map Prod.fst).Nodup := by
  induction rl generalizing d with
  | nil => exact h
  | cons r t ih =>
      apply ih
      unfold basketStep
      split
      · exact h
      · exact keys_nodup_upsert _ _ _ _ h

theorem basketDict_fold_not_mem (rules : List Rule) (bask items : List String)
    (d : List (String × ℚ)) (hd : ∀ q ∈ d, q.1 ∉ bask) :
    ∀ q ∈ items.foldl
        (fun d item =>
          (rules.filter (fun r => decide (r.antecedent = item))).foldl
            (basketStep bask) d) d,
      q.1 ∉ bask := by
  induction items generalizing d with
  | nil => exact hd
  | cons it t ih => exact ih _ (basketStep_fold_not_mem bask _ d hd)

theorem basketDict_fold_keys_nodup (rules : List Rule) (bask items : List String)
    (d : List (String × ℚ)) (h : (d.map Prod.fst).Nodup) :
    ((items.foldl
        (fun d item =>
          (rules.filter (fun r => decide (r.antecedent = item))).foldl
            (basketStep bask) d) d).map Prod.fst).Nodup := by
  induction items generalizing d with
  | nil => exact h
  | cons it t ih => exact ih _ (basketStep_fold_keys_nodup bask _ d h)

theorem mem_basketDict_not_in_basket (rules : List Rule) (bask : List String)
    (q : String × ℚ) (h : q ∈ basketDict rules bask) : q.1 ∉ bask :=
  basketDict_fold_not_mem rules bask bask [] (by simp) q h

theorem basketDict_keys_nodup (rules : List Rule) (bask : List String) :
    ((basketDict rules bask).map Prod.fst).Nodup :=
  basketDict_fold_keys_nodup rules bask bask [] (by simp)

theorem basketRecs_keys_nodup (st : EngineState) (bask : List String) :
    ((get_basket_recommendations st bask).map Prod.fst).Nodup := by
  unfold get_basket_recommendations
  split
  · simp
  · split
    · simp
    · exact ((List.take_sublist _ _).map Prod.fst).nodup
        (sortScoreDesc_keys_nodup (basketDict_keys_nodup _ _))

/-! ### Claim C8: basket recommendations never include basket items -/

/-- C8: no product returned by `get_basket_recommendations` is already in the
queried basket (line 242 skips consequents present in the basket). -/
theorem basket_recs_disjoint_from_basket (st : EngineState)
    (bask : List String) (pr : String × ℚ)
    (h : pr ∈ get_basket_recommendations st bask) : pr.1 ∉ bask := by
  unfold get_basket_recommendations at h
  split at h
  · simp at h
  · split at h
    · simp at h
    · exact mem_basketDict_not_in_basket _ _ _
        (mem_sortScoreDesc.mp (List.take_subset _ _ h))

/-- Witness for C8 at a concrete built rule set and basket. -/
theorem basket_recs_disjoint_from_basket_witness :
    ("C", (1 : ℚ)) ∈ get_basket_recommendations demoState ["B"] ∧
      "C" ∉ ["B"] := by
  have hmem : ("C", (1 : ℚ)) ∈ get_basket_recommendations demoState ["B"] := by
    norm_num [get_basket_recommendations, demoState, demoRules, basketDict,
      basketStep, upsert, sortScoreDesc, insertScoreDesc,
      top_n_recommendations]
    simp [insertScoreDesc]
  exact ⟨hmem,
    basket_recs_disjoint_from_basket demoState ["B"] ("C", 1) hmem⟩

/-! ### Claim C6 witness -/

/-- Witness for C6 at a concrete built similarity model. -/
theorem get_similar_excludes_query_witness :
    getSimilarProducts demoState "A" 10 =
      Except.ok [("B", (1 : ℚ)/2), ("C", 1/2)] ∧
      "A" ∉ ([("B", (1 : ℚ)/2), ("C", 1/2)].map Prod.fst) := by
  have heq : getSimilarProducts demoState "A" 10 =
      Except.ok [("B", (1 : ℚ)/2), ("C", 1/2)] := by
    simp [getSimilarProducts, demoState, demoDF, sortScoreDesc,
      insertScoreDesc]
    norm_num [insertScoreDesc]
    simp
  exact ⟨heq, get_similar_excludes_query demoState "A" 10 _ heq⟩

/-! ### Claim C7: soundness and completeness of rule retention -/

/-- The claim's confidence formula, which is also exactly the expression of
lines 203-204: co-occurrence count divided by the number of baskets
containing the antecedent. -/
def ruleConfidence (txs : List Transaction) (i j : String) : ℚ :=
  (coOccurrence (baskets txs) i j : ℚ) / (countContaining (baskets txs) i : ℚ)

theorem mem_pdUnique {x : String} : ∀ {l : List String},
    x ∈ pdUnique l ↔ x ∈ l := by
  intro l
  induction l using pdUnique.induct with
  | case1 => simp [pdUnique]
  | case2 a rest ih =>
      rw [pdUnique]
      simp only [List.mem_cons, ih, List.mem_filter, decide_eq_true_eq]
      by_cases hx : x = a
      · subst hx; tauto
      · tauto

theorem pdUnique_nodup (l : List String) : (pdUnique l).Nodup := by
  induction l using pdUnique.induct with
  | case1 => simp [pdUnique]
  | case2 a rest ih =>
      rw [pdUnique]
      refine List.nodup_cons.mpr ⟨fun hmem => ?_, ih⟩
      have hm := mem_pdUnique.mp hmem
      simp at hm

theorem frequent_nodup (txs : List Transaction) :
    (frequent_items txs).Nodup :=
  List.Nodup.filter _ (pdUnique_nodup _)

theorem mem_pairsAfter_ne {l : List String} (hnd : l.Nodup) {a b : String}
    (h : (a, b) ∈ pairsAfter l) : a ≠ b := by
  induction l with
  | nil => simp [pairsAfter] at h
  | cons x rest ih =>
      simp only [pairsAfter, List.mem_append, List.mem_map] at h
      simp only [List.nodup_cons] at hnd
      rcases h with ⟨b', hb', heq⟩ | hrec
      · cases heq
        exact fun he => hnd.1 (he ▸ hb')
      · exact ih hnd.2 hrec

theorem pairsAfter_complete {l : List String} {i j : String}
    (hi : i ∈ l) (hj : j ∈ l) (hne : i ≠ j) :
    (i, j) ∈ pairsAfter l ∨ (j, i) ∈ pairsAfter l := by
  induction l with
  | nil => simp at hi
  | cons x rest ih =>
      rcases List.mem_cons.mp hi with hix | hir
      · subst hix
        rcases List.mem_cons.mp hj with hjx | hjr
        · exact absurd hjx.symm hne
        · exact Or.inl (List.mem_append_left _
            (List.mem_map.mpr ⟨j, hjr, rfl⟩))
      · rcases List.mem_cons.mp hj with hjx | hjr
        · subst hjx
          exact Or.inr (List.mem_append_left _
            (List.mem_map.mpr ⟨i, hir, rfl⟩))
        · rcases ih hir hjr with h1 | h2
          · exact Or.inl (List.mem_append_right _ h1)
          · exact Or.inr (List.mem_append_right _ h2)

theorem coOccurrence_comm (bks : List (List String)) (a b : String) :
    coOccurrence bks a b = coOccurrence bks b a := by
  unfold coOccurrence
  congr 1
  apply List.filter_congr
  intro bk _
  simp [and_comm]

theorem rulesForPair_sound (bks : List (List String)) (supp : String → ℚ)
    (a b : String) (r : Rule) (h : r ∈ rulesForPair bks supp a b) :
    (r.antecedent = a ∧ r.consequent = b ∨
      r.antecedent = b ∧ r.consequent = a) ∧
    min_confidence ≤ r.confidence ∧
    r.confidence = (coOccurrence bks r.antecedent r.consequent : ℚ) /
      (countContaining bks r.antecedent : ℚ) := by
  simp only [rulesForPair] at h
  split at h
  · simp only [List.mem_append] at h
    rcases h with h1 | h1
    · split at h1
      · simp only [List.mem_singleton] at h1
        subst h1
        exact ⟨Or.inl ⟨rfl, rfl⟩, by assumption, rfl⟩
      · simp at h1
    · split at h1
      · simp only [List.mem_singleton] at h1
        subst h1
        refine ⟨Or.inr ⟨rfl, rfl⟩, by assumption, ?_⟩
        simp only [coOccurrence_comm bks b a]
      · simp at h1
  · simp at h

theorem rulesForPair_complete_first (bks : List (List String))
    (supp : String → ℚ) (a b : String)
    (hconf : min_confidence ≤
      (coOccurrence bks a b : ℚ) / (countContaining bks a : ℚ)) :
    ∃ r ∈ rulesForPair bks supp a b, r.antecedent = a ∧ r.consequent = b := by
  have hco : 0 < coOccurrence bks a b := by
    rcases Nat.eq_zero_or_pos (coOccurrence bks a b) with h0 | hp
    · rw [h0] at hconf
      norm_num [min_confidence] at hconf
    · exact hp
  refine ⟨{ antecedent := a, consequent := b,
            support := (coOccurrence bks a b : ℚ) / (bks.length : ℚ),
            confidence := (coOccurrence bks a b : ℚ) /
              (countContaining bks a : ℚ),
            lift := ((coOccurrence bks a b : ℚ) /
              (countContaining bks a : ℚ)) / supp b },
          ?_, rfl, rfl⟩
  simp only [rulesForPair, if_pos hco, if_pos hconf]
  exact List.mem_append_left _ (List.mem_singleton.mpr rfl)

theorem rulesForPair_complete_second (bks : List (List String))
    (supp : String → ℚ) (a b : String)
    (hconf : min_confidence ≤
      (coOccurrence bks a b : ℚ) / (countContaining bks b : ℚ)) :
    ∃ r ∈ rulesForPair bks supp a b, r.antecedent = b ∧ r.consequent = a := by
  have hco : 0 < coOccurrence bks a b := by
    rcases Nat.eq_zero_or_pos (coOccurrence bks a b) with h0 | hp
    · rw [h0] at hconf
      norm_num [min_confidence] at hconf
    · exact hp
  refine ⟨{ antecedent := b, consequent := a,
            support := (coOccurrence bks a b : ℚ) / (bks.length : ℚ),
            confidence := (coOccurrence bks a b : ℚ) /
              (countContaining bks b : ℚ),
            lift := ((coOccurrence bks a b : ℚ) /
              (countContaining bks b : ℚ)) / supp a },
          ?_, rfl, rfl⟩
  simp only [rulesForPair, if_pos hco]
  refine List.mem_append_right _ ?_
  rw [if_pos hconf]
  exact List.mem_singleton.mpr rfl

/-- C7: every retained rule has distinct antecedent and consequent and
confidence at least `min_confidence`, the stored confidence is the
co-occurrence count over the antecedent's basket count; and for any two
distinct frequent items i, j, the directional rule i → j is retained iff this
confidence meets the threshold. -/
theorem association_rules_confidence_iff (txs : List Transaction) :
    (∀ r ∈ perform_market_basket_analysis txs,
        r.antecedent ≠ r.consequent ∧ min_confidence ≤ r.confidence ∧
        r.confidence = ruleConfidence txs r.antecedent r.consequent) ∧
    (∀ i j, i ∈ frequent_items txs → j ∈ frequent_items txs → i ≠ j →
        ((∃ r ∈ perform_market_basket_analysis txs,
            r.antecedent = i ∧ r.consequent = j) ↔
          min_confidence ≤ ruleConfidence txs i j)) := by
  constructor
  · intro r hr
    obtain ⟨⟨x, y⟩, hxy, hrr⟩ := List.mem_flatMap.mp hr
    obtain ⟨hdir, hconf, hform⟩ := rulesForPair_sound _ _ _ _ _ hrr
    have hne := mem_pairsAfter_ne (frequent_nodup txs) hxy
    refine ⟨?_, hconf, hform⟩
    rcases hdir with ⟨h1, h2⟩ | ⟨h1, h2⟩
    · rw [h1, h2]; exact hne
    · rw [h1, h2]; exact hne.symm
  · intro i j hi hj hne
    constructor
    · rintro ⟨r, hr, hai, hcj⟩
      obtain ⟨⟨x, y⟩, hxy, hrr⟩ := List.mem_flatMap.mp hr
      obtain ⟨hdir, hconf, hform⟩ := rulesForPair_sound _ _ _ _ _ hrr
      rw [hform, hai, hcj] at hconf
      exact hconf
    · intro hc
      unfold ruleConfidence at hc
      rcases pairsAfter_complete hi hj hne with hp | hp
      · obtain ⟨r, hrmem, ha, hb⟩ :=
          rulesForPair_complete_first (baskets txs) (item_support txs) i j hc
        exact ⟨r, List.mem_flatMap.mpr ⟨(i, j), hp, hrmem⟩, ha, hb⟩
      · have hc' : min_confidence ≤
            (coOccurrence (baskets txs) j i : ℚ) /
              (countContaining (baskets txs) i : ℚ) := by
          rwa [coOccurrence_comm]
        obtain ⟨r, hrmem, ha, hb⟩ :=
          rulesForPair_complete_second (baskets txs) (item_support txs) j i hc'
        exact ⟨r, List.mem_flatMap.mpr ⟨(j, i), hp, hrmem⟩, ha, hb⟩

/-- Witness for C7 at the specification's basket scenario (baskets {A,B},
{A,B}, {A}): the rule A → B has confidence 2/3 ≥ 1/10 and is retained. -/
theorem association_rules_confidence_iff_witness :
    ∃ r ∈ perform_market_basket_analysis demoTxs,
      r.antecedent = "A" ∧ r.consequent = "B" := by
  have hi : ("A" : String) ∈ frequent_items demoTxs := by
    simp [frequent_items, all_products, pdUnique, item_support, baskets,
      basketIds, basketOf, countContaining, min_support, demoTxs]
    norm_num
  have hj : ("B" : String) ∈ frequent_items demoTxs := by
    simp [frequent_items, all_products, pdUnique, item_support, baskets,
      basketIds, basketOf, countContaining, min_support, demoTxs]
    norm_num
  have hc : min_confidence ≤ ruleConfidence demoTxs "A" "B" := by
    simp [ruleConfidence, coOccurrence, countContaining, baskets,
      basketIds, basketOf, pdUnique, min_confidence, demoTxs]
    norm_num
  exact ((association_rules_confidence_iff demoTxs).2 "A" "B" hi hj
    (by decide)).mpr hc

/-! ### Claim C1: the hybrid blend -/

theorem getSimilarProducts_setVal (df : SimDF) (st : EngineState)
    (hdf : st.product_similarity_df = Attr.setVal df) (pid : String) (n : Nat) :
    getSimilarProducts st pid n =
      if pid ∈ df.products then
        .ok ((((sortScoreDesc
                 (df.products.map (fun p => (p, df.score p pid)))).filter
                (fun pr => decide (pr.1 ≠ pid))).take n))
      else .ok [] := by
  unfold getSimilarProducts
  rw [hdf]

theorem getSimilar_keys_nodup (st : EngineState) (pid : String) (n : Nat)
    (l : List (String × ℚ)) (hnd : simNodup st)
    (h : getSimilarProducts st pid n = .ok l) : (l.map Prod.fst).Nodup := by
  cases hdf : st.product_similarity_df with
  | unset =>
      unfold getSimilarProducts at h
      rw [hdf] at h
      exact absurd h (by simp)
  | setNone =>
      unfold getSimilarProducts at h
      rw [hdf] at h
      cases h
      simp
  | setVal df =>
      have hdfnd : df.products.Nodup := by
        unfold simNodup at hnd
        rw [hdf] at hnd
        exact hnd
      rw [getSimilarProducts_setVal df st hdf pid n] at h
      split at h
      · cases h
        have hfst : ∀ ps : List String,
            (ps.map (fun p => (p, df.score p pid))).map Prod.fst = ps := by
          intro ps
          induction ps with
          | nil => rfl
          | cons a t ih => simp [ih]
        have h1 : ((df.products.map
            (fun p => (p, df.score p pid))).map Prod.fst).Nodup := by
          rw [hfst]
          exact hdfnd
        exact ((List.take_sublist _ _).map Prod.fst).nodup
          (((List.filter_sublist _).map Prod.fst).nodup
            (sortScoreDesc_keys_nodup h1))
      · cases h
        simp

theorem hybridItemPart_lookup (st : EngineState) (pid : Option String)
    (l : List (String × ℚ)) (hnd : simNodup st)
    (h : hybridItemPart st pid = .ok l) (p : String) :
    lookupD l p = specItemScore st pid p * (6/10) := by
  unfold hybridItemPart at h
  by_cases ht : truthyStr pid = true
  · rw [if_pos ht] at h
    cases pid with
    | none => simp [truthyStr] at ht
    | some s =>
        have hse : s.isEmpty = false := by
          simpa [truthyStr] using ht
        cases hdf : st.product_similarity_df with
        | unset => rw [hdf] at h; exact absurd h (by simp)
        | setNone =>
            rw [hdf] at h
            cases h
            have hgs : getSimilarProducts st s 10 = .ok [] := by
              unfold getSimilarProducts
              rw [hdf]
            simp [specItemScore, hse, hgs, lookupD_nil]
        | setVal df =>
            rw [hdf] at h
            cases hgs : getSimilarProducts st ((some s).getD "") 10 with
            | error e => rw [hgs] at h; exact absurd h (by simp)
            | ok ir =>
                rw [hgs] at h
                cases h
                simp only [Option.getD_some] at hgs
                have hirnd : (ir.map Prod.fst).Nodup :=
                  getSimilar_keys_nodup st s 10 ir hnd hgs
                rw [lookupD_accumWeighted [] ir (6/10) p hirnd, lookupD_nil]
                simp [specItemScore, hse, hgs]
  · rw [if_neg ht] at h
    cases h
    rw [lookupD_nil]
    cases pid with
    | none => simp [specItemScore]
    | some s =>
        have hse : s.isEmpty = true := by
          simpa [truthyStr] using ht
        simp [specItemScore, hse]

theorem hybridItemPart_keys (st : EngineState) (pid : Option String)
    (l : List (String × ℚ)) (h : hybridItemPart st pid = .ok l) (p : String)
    (hsrc : inItemSource st pid p) : p ∈ l.map Prod.fst := by
  obtain ⟨ht, l10, hgs, hmem⟩ := hsrc
  unfold hybridItemPart at h
  rw [if_pos ht] at h
  cases hdf : st.product_similarity_df with
  | unset => rw [hdf] at h; exact absurd h (by simp)
  | setNone =>
      have hgs0 : getSimilarProducts st (pid.getD "") 10 = .ok [] := by
        unfold getSimilarProducts
        rw [hdf]
      rw [hgs0] at hgs
      cases hgs
      simp at hmem
  | setVal df =>
      rw [hdf] at h
      cases hgs2 : getSimilarProducts st (pid.getD "") 10 with
      | error e => rw [hgs2] at h; exact absurd h (by simp)
      | ok ir =>
          rw [hgs2] at h
          cases h
          rw [hgs2] at hgs
          injection hgs with hgseq
          subst hgseq
          exact (mem_keys_accumWeighted [] _ (6/10) p).mpr (Or.inr hmem)

theorem hybridItemPart_keys_nodup (st : EngineState) (pid : Option String)
    (l : List (String × ℚ)) (h : hybridItemPart st pid = .ok l) :
    (l.map Prod.fst).Nodup := by
  unfold hybridItemPart at h
  by_cases ht : truthyStr pid = true
  · rw [if_pos ht] at h
    cases hdf : st.product_similarity_df with
    | unset => rw [hdf] at h; exact absurd h (by simp)
    | setNone => rw [hdf] at h; cases h; simp
    | setVal df =>
        rw [hdf] at h
        cases hgs : getSimilarProducts st (pid.getD "") 10 with
        | error e => rw [hgs] at h; exact absurd h (by simp)
        | ok ir =>
            rw [hgs] at h
            cases h
            exact keys_nodup_accumWeighted [] ir (6/10) (by simp)
  · rw [if_neg ht] at h
    cases h
    simp

theorem hybridAllRecs_ok (st : EngineState) (pid : Option String)
    (bask : Option (List String)) (all1 : List (String × ℚ))
    (hip : hybridItemPart st pid = .ok all1) :
    hybridAllRecs st pid bask =
      if truthyList bask = true ∧ (st.association_rules).isSome = true then
        .ok (accumWeighted all1
              (get_basket_recommendations st (bask.getD [])) (4/10))
      else .ok all1 := by
  unfold hybridAllRecs
  rw [hip]

theorem hybridAllRecs_lookup (st : EngineState) (pid : Option String)
    (bask : Option (List String)) (l : List (String × ℚ)) (hnd : simNodup st)
    (h : hybridAllRecs st pid bask = .ok l) (p : String) :
    lookupD l p = specItemScore st pid p * (6/10) +
      specBasketScore st bask p * (4/10) := by
  cases hip : hybridItemPart st pid with
  | error e =>
      rw [hybridAllRecs] at h
      rw [hip] at h
      exact absurd h (by simp)
  | ok all1 =>
      rw [hybridAllRecs_ok st pid bask all1 hip] at h
      by_cases hg : truthyList bask = true ∧ (st.association_rules).isSome = true
      · rw [if_pos hg] at h
        cases h
        rw [lookupD_accumWeighted all1 _ (4/10) p (basketRecs_keys_nodup st _),
          hybridItemPart_lookup st pid all1 hnd hip p]
        obtain ⟨hb1, _⟩ := hg
        cases bask with
        | none => simp [truthyList] at hb1
        | some b =>
            have hbe : b.isEmpty = false := by
              simpa [truthyList] using hb1
            simp [specBasketScore, hbe]
      · rw [if_neg hg] at h
        cases h
        rw [hybridItemPart_lookup st pid l hnd hip p]
        have hbs : specBasketScore st bask p = 0 := by
          cases bask with
          | none => rfl
          | some b =>
              by_cases hbe : b.isEmpty = true
              · simp [specBasketScore, hbe]
              · have hrn : st.association_rules = none := by
                  cases hr : st.association_rules with
                  | none => rfl
                  | some rs =>
                      exact absurd ⟨by simpa [truthyList] using hbe,
                        by simp [hr]⟩ hg
                simp [specBasketScore, hbe, get_basket_recommendations, hrn,
                  lookupD_nil]
        rw [hbs]
        ring


theorem hybridAllRecs_keys (st : EngineState) (pid : Option String)
    (bask : Option (List String)) (l : List (String × ℚ))
    (h : hybridAllRecs st pid bask = .ok l) (p : String)
    (hsrc : inItemSource st pid p ∨ inBasketSource st bask p) :
    p ∈ l.map Prod.fst := by
  cases hip : hybridItemPart st pid with
  | error e =>
      rw [hybridAllRecs] at h
      rw [hip] at h
      exact absurd h (by simp)
  | ok all1 =>
      rw [hybridAllRecs_ok st pid bask all1 hip] at h
      by_cases hg : truthyList bask = true ∧ (st.association_rules).isSome = true
      · rw [if_pos hg] at h
        cases h
        rw [mem_keys_accumWeighted]
        rcases hsrc with hi | hb
        · exact Or.inl (hybridItemPart_keys st pid all1 hip p hi)
        · exact Or.inr hb.2
      · rw [if_neg hg] at h
        cases h
        rcases hsrc with hi | hb
        · exact hybridItemPart_keys st pid l hip p hi
        · exfalso
          obtain ⟨hb1, hb2⟩ := hb
          have hrn : st.association_rules = none := by
            cases hr : st.association_rules with
            | none => rfl
            | some rs => exact absurd ⟨hb1, by simp [hr]⟩ hg
          simp [get_basket_recommendations, hrn] at hb2

theorem hybridAllRecs_keys_nodup (st : EngineState) (pid : Option String)
    (bask : Option (List String)) (l : List (String × ℚ))
    (h : hybridAllRecs st pid bask = .ok l) : (l.map Prod.fst).Nodup := by
  cases hip : hybridItemPart st pid with
  | error e =>
      rw [hybridAllRecs] at h
      rw [hip] at h
      exact absurd h (by simp)
  | ok all1 =>
      rw [hybridAllRecs_ok st pid bask all1 hip] at h
      by_cases hg : truthyList bask = true ∧ (st.association_rules).isSome = true
      · rw [if_pos hg] at h
        cases h
        exact keys_nodup_accumWeighted all1 _ (4/10)
          (hybridItemPart_keys_nodup st pid all1 hip)
      · rw [if_neg hg] at h
        cases h
        exact hybridItemPart_keys_nodup st pid l hip

theorem getRecommendations_hybrid_ok (st : EngineState)
    (c pid : Option String) (bask : Option (List String))
    (all : List (String × ℚ)) (hh : hybridAllRecs st pid bask = .ok all) :
    getRecommendations st c pid bask "hybrid" =
      { customer_id := customerOr c,
        recommended_products :=
          ((sortScoreDesc all).take top_n_recommendations).map
            (fun pr => ⟨pr.1, pr.2, "Hybrid recommendation"⟩),
        recommendation_type := "hybrid",
        confidence_score :=
          meanScore (((sortScoreDesc all).take top_n_recommendations).map
            (fun pr => ⟨pr.1, pr.2, "Hybrid recommendation"⟩)),
        explanation := "Recommendations using multiple algorithms" } := by
  have h1 : ¬(("hybrid" : String) = "item_based" ∧ truthyStr pid = true) :=
    fun hc => by simpa using hc.1
  have h2 : ¬(("hybrid" : String) = "market_basket" ∧
      truthyList bask = true) := fun hc => by simpa using hc.1
  unfold getRecommendations innerBranches
  rw [hh, if_neg h1, if_neg h2, if_pos rfl]

/-- C1: in hybrid mode every returned candidate's score is
`0.6 * item_score + 0.4 * basket_score` with a missing source contributing 0,
and any candidate present in at least one source is among the merged
candidates (the `all_recs` dict) — it is never excluded for lacking one
signal. -/
theorem hybrid_score_blend (st : EngineState) (c pid : Option String)
    (bask : Option (List String)) (hnd : simNodup st) :
    (∀ it ∈ (getRecommendations st c pid bask "hybrid").recommended_products,
        it.score = 6/10 * specItemScore st pid it.product_id +
          4/10 * specBasketScore st bask it.product_id) ∧
    (∀ l, hybridAllRecs st pid bask = Except.ok l →
        ∀ p, inItemSource st pid p ∨ inBasketSource st bask p →
          p ∈ l.map Prod.fst) := by
  constructor
  · intro it hit
    cases hh : hybridAllRecs st pid bask with
    | error e =>
        have h1 : ¬(("hybrid" : String) = "item_based" ∧
            truthyStr pid = true) := fun hc => by simpa using hc.1
        have h2 : ¬(("hybrid" : String) = "market_basket" ∧
            truthyList bask = true) := fun hc => by simpa using hc.1
        simp only [getRecommendations, innerBranches, if_neg h1, if_neg h2,
          if_pos rfl] at hit
        rw [hh] at hit
        simp at hit
    | ok all =>
        rw [getRecommendations_hybrid_ok st c pid bask all hh] at hit
        simp only [List.mem_map] at hit
        obtain ⟨pr, hpr, heq⟩ := hit
        subst heq
        have hmem : pr ∈ all :=
          mem_sortScoreDesc.mp (List.take_subset _ _ hpr)
        have hmem' : (pr.1, pr.2) ∈ all := by simpa using hmem
        have hlook := lookupD_of_mem all
          (hybridAllRecs_keys_nodup st pid bask all hh) pr.1 pr.2 hmem'
        have hval := hybridAllRecs_lookup st pid bask all hnd hh pr.1
        rw [hlook] at hval
        simp only []
        rw [hval]
        ring
  · exact fun l hl p => hybridAllRecs_keys st pid bask l hl p

/-- Witness for C1 at a concrete built engine: candidate C appears in both
sources and its hybrid score is the weighted blend. -/
theorem hybrid_score_blend_witness :
    (RecItem.mk "C" (7/10) "Hybrid recommendation") ∈
      (getRecommendations demoState none (some "A") (some ["B"])
        "hybrid").recommended_products ∧
    (7/10 : ℚ) = 6/10 * specItemScore demoState (some "A") "C" +
      4/10 * specBasketScore demoState (some ["B"]) "C" := by
  have hnd : simNodup demoState := by
    show (["A", "B", "C"] : List String).Nodup
    decide
  have hmem : (RecItem.mk "C" (7/10) "Hybrid recommendation") ∈
      (getRecommendations demoState none (some "A") (some ["B"])
        "hybrid").recommended_products := by
    simp [getRecommendations, innerBranches, hybridAllRecs,
      hybridItemPart, getSimilarProducts, demoState, demoDF, demoRules,
      truthyStr, truthyList, sortScoreDesc, insertScoreDesc, accumWeighted,
      upsert, get_basket_recommendations, basketDict, basketStep,
      top_n_recommendations, meanScore, show ("A" : String).isEmpty = false from rfl]
    norm_num [insertScoreDesc, upsert]
    simp
    norm_num [insertScoreDesc]
  exact ⟨hmem,
    (hybrid_score_blend demoState none (some "A") (some ["B"]) hnd).1
      (RecItem.mk "C" (7/10) "Hybrid recommendation") hmem⟩

end Aurora
